import Mathlib

/-!
Verification of the FPL squad-optimization engine.

The source builds PuLP mixed-integer programs.  We embed each model as a
feasibility predicate over explicit solution assignments, transcribed
constraint-by-constraint from the Python that adds them to the `LpProblem`.

Numeric conventions of the embedding:
* Money (player prices, budgets, bank balances) is held in integer tenths
  of a currency unit (`Int`).  In the source, prices are `now_cost / 10.0`
  where `now_cost` is an integer number of tenths, so every price and every
  budget bound is an exact multiple of 0.1 and the integer-tenths encoding
  is exact; all budget constraints are linear with unit coefficients, so
  the scaling preserves them.
* Forecast scores (`matr`, `s_matr`, `rppm`), which the source holds as
  floats, are modelled as exact rationals (`ℚ`).
* `LpBinary` decision variables are modelled as integer-valued assignments
  together with the explicit 0/1 bounds that `LpBinary` declares.
-/

/-- Sum of an integer-valued function over a Python-style list comprehension. -/
def isum {α : Type} (l : List α) (f : α → Int) : Int :=
  (l.map f).sum

/-- Sum of a rational-valued function over a Python-style list comprehension. -/
def qsum {α : Type} (l : List α) (f : α → ℚ) : ℚ :=
  (l.map f).sum

/-! ## Multi-gameweek optimizer (`solve_multi_gameweek_optimization`) -/

/-- Inputs of `solve_multi_gameweek_optimization` in `fantacy_pulp.py`.
Scores (`player_scores_matr`) do not appear in any constraint, only in the
objective, so they are kept out of the instance record. -/
structure MGOInstance where
  allGws : List Nat
  players : List Nat
  initialSquadIds : List Nat
  cost : Nat → Int
  pos : Nat → Nat
  teamOf : Nat → Nat
  allTeamIds : List Nat
  initialMoneyItb : Int
  initialTeamValue : Int
  initialFts : Int

/-- `TRANSFER_GWS = ALL_GWS[1:]`. -/
def MGOInstance.transferGws (m : MGOInstance) : List Nat :=
  m.allGws.drop 1

/-- `gw_pairs = list(zip(ALL_GWS[1:], ALL_GWS[:-1]))`: each pair is
`(t_current, t_prev)`.  `List.zip` truncates to the shorter list, so
zipping against the full list gives the same pairs as zipping against
`ALL_GWS[:-1]`. -/
def MGOInstance.gwPairs (m : MGOInstance) : List (Nat × Nat) :=
  (m.allGws.drop 1).zip m.allGws

/-- `t_start = ALL_GWS[0]` (also `first_gw`). -/
def MGOInstance.tStart (m : MGOInstance) : Nat :=
  m.allGws.headI

/-- One assignment to the decision variables of the MGO model.  The source
also declares `Bench_Boost` binaries `B`, but no constraint and no objective
term mentions them, so they are omitted.  There is no vice-captain variable
in this model. -/
structure MGOSol where
  X : Nat → Nat → Int
  S : Nat → Nat → Int
  C : Nat → Nat → Int
  I : Nat → Nat → Int
  O : Nat → Nat → Int
  FT : Nat → Int
  TFree : Nat → Int
  P : Nat → Int

/-- `POS_LIMITS = {1: 2, 2: 5, 3: 5, 4: 3}`. -/
def posLimits : List (Nat × Int) := [(1, 2), (2, 5), (3, 5), (4, 3)]

/-- `FORMATION_MIN = {1: 1, 2: 3, 3: 2, 4: 1}`. -/
def formationMin : Nat → Int
  | 1 => 1 | 2 => 3 | 3 => 2 | 4 => 1 | _ => 0

/-- `FORMATION_MAX = {1: 1, 2: 5, 3: 5, 4: 3}`. -/
def formationMax : Nat → Int
  | 1 => 1 | 2 => 5 | 3 => 5 | 4 => 3 | _ => 0

/-- The constraint set of `solve_multi_gameweek_optimization`, transcribed
block by block (letters follow the comments in the source).  The variable
bounds come from the `LpVariable` declarations (`LpBinary`; `FT` with
`lowBound=1, upBound=2`; `T_Free`, `P` with `lowBound=0`).  The source
additionally evaluates `TRANSFER_GWS[0]`, which raises on a horizon without
transfer periods; that is modelled by the `m.transferGws ≠ []` conjunct. -/
def mgoFeasible (m : MGOInstance) (sol : MGOSol) : Prop :=
  -- variable domains
  (∀ i ∈ m.players, ∀ t ∈ m.allGws,
      (0 ≤ sol.X i t ∧ sol.X i t ≤ 1) ∧ (0 ≤ sol.S i t ∧ sol.S i t ≤ 1) ∧
      (0 ≤ sol.C i t ∧ sol.C i t ≤ 1)) ∧
  (∀ i ∈ m.players, ∀ t ∈ m.transferGws,
      (0 ≤ sol.I i t ∧ sol.I i t ≤ 1) ∧ (0 ≤ sol.O i t ∧ sol.O i t ≤ 1)) ∧
  (∀ t ∈ m.transferGws,
      (1 ≤ sol.FT t ∧ sol.FT t ≤ 2) ∧ 0 ≤ sol.TFree t ∧ 0 ≤ sol.P t) ∧
  -- A. squad continuity
  (∀ i ∈ m.players, ∀ p ∈ m.gwPairs,
      sol.X i p.1 - sol.X i p.2 + sol.O i p.1 - sol.I i p.1 = 0) ∧
  -- B. transfer balance
  (∀ t ∈ m.transferGws,
      isum m.players (fun i => sol.I i t) = isum m.players (fun i => sol.O i t)) ∧
  -- C. total transfers link
  (∀ t ∈ m.transferGws,
      isum m.players (fun i => sol.I i t) = sol.TFree t + sol.P t) ∧
  -- D. free transfer usage limit
  (∀ t ∈ m.transferGws, sol.TFree t ≤ sol.FT t) ∧
  -- E. carryover logic
  (∀ p ∈ m.gwPairs,
      (p.2 = m.tStart → sol.FT p.1 - m.initialFts + sol.TFree p.1 = 1) ∧
      (p.2 ≠ m.tStart → sol.FT p.1 - sol.FT p.2 + sol.TFree p.2 = 1)) ∧
  -- F. initial squad fix
  (∀ i ∈ m.players,
      sol.X i m.tStart = if i ∈ m.initialSquadIds then 1 else 0) ∧
  -- G. budget limit at t_start, then the rolling-bank transfer budgets
  (isum m.players (fun i => sol.X i m.tStart * m.cost i)
      ≤ m.initialTeamValue + m.initialMoneyItb) ∧
  (m.transferGws ≠ [] ∧
    isum m.players (fun i => sol.I i m.transferGws.headI * m.cost i)
      ≤ isum m.players (fun i => sol.O i m.transferGws.headI * m.cost i)
          + m.initialMoneyItb) ∧
  (∀ t ∈ m.transferGws.drop 1,
      isum m.players (fun i => sol.I i t * m.cost i)
        ≤ isum m.players (fun i => sol.O i t * m.cost i)) ∧
  -- H. squad size and positional limits
  (∀ t ∈ m.allGws,
      isum m.players (fun i => sol.X i t) = 15 ∧
      ∀ pl ∈ posLimits,
        isum (m.players.filter (fun i => m.pos i == pl.1)) (fun i => sol.X i t)
          ≤ pl.2) ∧
  -- I. team limits
  (∀ tm ∈ m.allTeamIds, ∀ t ∈ m.allGws,
      isum (m.players.filter (fun i => m.teamOf i == tm)) (fun i => sol.X i t)
        ≤ 3) ∧
  -- J. starting XI and captain constraints
  (∀ t ∈ m.allGws,
      isum m.players (fun i => sol.S i t) = 11 ∧
      isum m.players (fun i => sol.C i t) = 1 ∧
      (∀ pl ∈ posLimits,
        formationMin pl.1
            ≤ isum (m.players.filter (fun i => m.pos i == pl.1))
                (fun i => sol.S i t) ∧
        isum (m.players.filter (fun i => m.pos i == pl.1))
            (fun i => sol.S i t)
          ≤ formationMax pl.1) ∧
      (∀ i ∈ m.players, sol.S i t ≤ sol.X i t ∧ sol.C i t ≤ sol.S i t))

instance (m : MGOInstance) (sol : MGOSol) : Decidable (mgoFeasible m sol) := by
  unfold mgoFeasible
  infer_instance

/-! A concrete feasible MGO scenario used by the concrete-input theorems:
a two-gameweek horizon over a universe of exactly the 15 initially owned
players (positions 2/5/5/3, five teams of three, every price 6.0), holding
the squad with zero transfers. -/

/-- Concrete MGO instance: gameweeks `[1, 2]`, players `0`..`14`. -/
def mgoInst0 : MGOInstance where
  allGws := [1, 2]
  players := [0, 1, 2, 3, 4, 5, 6, 7, 8, 9, 10, 11, 12, 13, 14]
  initialSquadIds := [0, 1, 2, 3, 4, 5, 6, 7, 8, 9, 10, 11, 12, 13, 14]
  cost := fun _ => 60
  pos := fun i => if i < 2 then 1 else if i < 7 then 2 else if i < 12 then 3 else 4
  teamOf := fun i => i % 5
  allTeamIds := [0, 1, 2, 3, 4]
  initialMoneyItb := 100
  initialTeamValue := 900
  initialFts := 1

/-- Concrete MGO solution for `mgoInst0`: keep all 15 players both weeks,
make no transfers, start players `0, 2, 3, 4, 5, 7, 8, 9, 10, 12, 13`
(a 1-4-4-2 formation) and captain player `0`. -/
def mgoSol0 : MGOSol where
  X := fun _ _ => 1
  S := fun i _ => if i ∈ [0, 2, 3, 4, 5, 7, 8, 9, 10, 12, 13] then 1 else 0
  C := fun i _ => if i = 0 then 1 else 0
  I := fun _ _ => 0
  O := fun _ _ => 0
  FT := fun _ => 2
  TFree := fun _ => 0
  P := fun _ => 0


/-- A three-gameweek variant used to exercise the standard ledger
carry-over equation: with no transfers at all, the carry-over forces
`FT` to grow by one per window, so we start from zero free transfers. -/
def mgoInst1 : MGOInstance :=
  { mgoInst0 with allGws := [1, 2, 3], initialFts := 0 }

/-- Zero-transfer solution for `mgoInst1`; the ledger runs 0 → 1 → 2. -/
def mgoSol1 : MGOSol :=
  { mgoSol0 with FT := fun t => if t = 2 then 1 else 2 }


/-! Summation helpers. -/

theorem isum_nil {α : Type} (f : α → Int) : isum ([] : List α) f = 0 := rfl

theorem isum_cons {α : Type} (a : α) (l : List α) (f : α → Int) :
    isum (a :: l) f = f a + isum l f := by
  simp [isum]

theorem qsum_nil {α : Type} (f : α → ℚ) : qsum ([] : List α) f = 0 := rfl

theorem qsum_cons {α : Type} (a : α) (l : List α) (f : α → ℚ) :
    qsum (a :: l) f = f a + qsum l f := by
  simp [qsum]

theorem isum_nonneg {α : Type} {l : List α} {f : α → Int}
    (h : ∀ a ∈ l, 0 ≤ f a) : 0 ≤ isum l f := by
  induction l with
  | nil => simp [isum]
  | cons a l ih =>
    rw [isum_cons]
    have h1 := h a (by simp)
    have h2 := ih fun x hx => h x (by simp [hx])
    omega

/-- Splitting a sum over a list of players into the sums over the four
position classes, assuming every player's position id is one of 1–4. -/
theorem isum_pos_partition (l : List Nat) (posf : Nat → Nat) (f : Nat → Int)
    (hl : ∀ i ∈ l, posf i = 1 ∨ posf i = 2 ∨ posf i = 3 ∨ posf i = 4) :
    isum l f =
      isum (l.filter (fun i => posf i == 1)) f +
      isum (l.filter (fun i => posf i == 2)) f +
      isum (l.filter (fun i => posf i == 3)) f +
      isum (l.filter (fun i => posf i == 4)) f := by
  induction l with
  | nil => simp [isum]
  | cons hd tl ih =>
    have htl : ∀ i ∈ tl, posf i = 1 ∨ posf i = 2 ∨ posf i = 3 ∨ posf i = 4 :=
      fun i hi => hl i (by simp [hi])
    have hih := ih htl
    rcases hl hd (by simp) with h1 | h1 | h1 | h1 <;>
      simp [List.filter_cons, h1, isum_cons, hih] <;> ring

/-- Claim C1: in every feasible solution of the multi-period transfer
optimizer, for every transfer period `t` (paired with its predecessor by
`gw_pairs`) and every asset `i`, ownership satisfies
`Own[i,t] = Own[i,t-1] − Out[i,t] + In[i,t]`; the number of assets
transferred in equals the number transferred out; and the squad size is
unchanged from one period to the next. -/
theorem mgo_continuity_law (m : MGOInstance) (sol : MGOSol)
    (h : mgoFeasible m sol) :
    ∀ p ∈ m.gwPairs,
      (∀ i ∈ m.players,
        sol.X i p.1 = sol.X i p.2 - sol.O i p.1 + sol.I i p.1) ∧
      isum m.players (fun i => sol.I i p.1) =
        isum m.players (fun i => sol.O i p.1) ∧
      isum m.players (fun i => sol.X i p.1) =
        isum m.players (fun i => sol.X i p.2) := by
  obtain ⟨-, -, -, hA, hB, -, -, -, -, -, -, -, hH, -, -⟩ := h
  intro p hp
  have hp1 : p.1 ∈ m.transferGws := (List.of_mem_zip hp).1
  have hp1' : p.1 ∈ m.allGws := List.drop_subset 1 m.allGws hp1
  have hp2 : p.2 ∈ m.allGws := (List.of_mem_zip hp).2
  refine ⟨fun i hi => ?_, hB p.1 hp1, ?_⟩
  · have := hA i hi p hp
    omega
  · rw [(hH p.1 hp1').1, (hH p.2 hp2).1]

/-- Claim C1 witness: the continuity law evaluated on the concrete
two-gameweek scenario. -/
theorem mgo_continuity_law_witness :
    mgoFeasible mgoInst0 mgoSol0 ∧
    ((2, 1) ∈ mgoInst0.gwPairs ∧
      ∀ i ∈ mgoInst0.players,
        mgoSol0.X i 2 = mgoSol0.X i 1 - mgoSol0.O i 2 + mgoSol0.I i 2) :=
  ⟨by decide, by decide,
    (mgo_continuity_law mgoInst0 mgoSol0 (by decide) (2, 1) (by decide)).1⟩

/-- Claim C2: the free-transfer ledger equations.  For consecutive transfer
periods, `FT[t] − FT[t-1] + T_Free[t-1] = 1`; for the transition out of the
initial period, the externally supplied free-transfer count replaces
`FT[t-1]` and the usage term of that window is `T_Free[t]` itself. -/
theorem mgo_ft_ledger (m : MGOInstance) (sol : MGOSol)
    (h : mgoFeasible m sol) :
    ∀ p ∈ m.gwPairs,
      (p.2 ≠ m.tStart →
        sol.FT p.1 - sol.FT p.2 + sol.TFree p.2 = 1) ∧
      (p.2 = m.tStart →
        sol.FT p.1 - m.initialFts + sol.TFree p.1 = 1) := by
  obtain ⟨-, -, -, -, -, -, -, hE, -, -, -, -, -, -, -⟩ := h
  intro p hp
  exact ⟨(hE p hp).2, (hE p hp).1⟩

/-- Claim C2 witness: the ledger equations on the concrete three-gameweek
scenario, exercising both the initial transition (pair `(2,1)`) and the
standard consecutive-period transition (pair `(3,2)`). -/
theorem mgo_ft_ledger_witness :
    mgoFeasible mgoInst1 mgoSol1 ∧
    ((2, 1) ∈ mgoInst1.gwPairs ∧ (1 : Nat) = mgoInst1.tStart ∧
      mgoSol1.FT 2 - mgoInst1.initialFts + mgoSol1.TFree 2 = 1) ∧
    ((3, 2) ∈ mgoInst1.gwPairs ∧ (2 : Nat) ≠ mgoInst1.tStart ∧
      mgoSol1.FT 3 - mgoSol1.FT 2 + mgoSol1.TFree 2 = 1) :=
  ⟨by decide,
    ⟨by decide, by decide,
      (mgo_ft_ledger mgoInst1 mgoSol1 (by decide) (2, 1) (by decide)).2
        (by decide)⟩,
    ⟨by decide, by decide,
      (mgo_ft_ledger mgoInst1 mgoSol1 (by decide) (3, 2) (by decide)).1
        (by decide)⟩⟩

/-- Claim C3 counterexample: the multi-period model has no vice-captain
variable, and no constraint of `solve_multi_gameweek_optimization` mentions
one; so the claim — read as: in every feasible solution there is a
vice-captain assignment with exactly one vice-captain per period, a
starter, exclusive with the captain — is false: the all-zero vice-captain
assignment accompanies a feasible solution. -/
theorem mgo_vice_captain_cex :
    ¬ ∀ (m : MGOInstance) (sol : MGOSol) (vcap : Nat → Nat → Int),
        mgoFeasible m sol →
        ∀ t ∈ m.allGws,
          isum m.players (fun i => sol.C i t) = 1 ∧
          isum m.players (fun i => vcap i t) = 1 ∧
          (∀ i ∈ m.players,
            sol.C i t ≤ sol.S i t ∧ vcap i t ≤ sol.S i t ∧
            sol.C i t + vcap i t ≤ 1) := by
  intro hclaim
  have h :=
    (hclaim mgoInst0 mgoSol0 (fun _ _ => 0) (by decide) 1 (by decide)).2.1
  exact absurd h (by decide)

/-- Claim C3, amended: in every feasible solution of the multi-period
optimizer, every period has exactly one captain and the captain is a
starter (hence also owned); the model has no vice-captain notion. -/
theorem mgo_one_captain (m : MGOInstance) (sol : MGOSol)
    (h : mgoFeasible m sol) :
    ∀ t ∈ m.allGws,
      isum m.players (fun i => sol.C i t) = 1 ∧
      ∀ i ∈ m.players, sol.C i t ≤ sol.S i t ∧ sol.C i t ≤ sol.X i t := by
  obtain ⟨-, -, -, -, -, -, -, -, -, -, -, -, -, -, hJ⟩ := h
  intro t ht
  refine ⟨(hJ t ht).2.1, fun i hi => ?_⟩
  have hs := ((hJ t ht).2.2.2 i hi).1
  have hc := ((hJ t ht).2.2.2 i hi).2
  exact ⟨hc, by omega⟩

/-- Claim C3 (amended) witness: exactly one captain in gameweek 1 of the
concrete scenario, and the captain starts. -/
theorem mgo_one_captain_witness :
    mgoFeasible mgoInst0 mgoSol0 ∧ (1 : Nat) ∈ mgoInst0.allGws ∧
      isum mgoInst0.players (fun i => mgoSol0.C i 1) = 1 :=
  ⟨by decide, by decide,
    (mgo_one_captain mgoInst0 mgoSol0 (by decide) 1 (by decide)).1⟩

/-- Claim C4: under the rolling-bank budget policy, the first transfer
period may spend at most its sale proceeds plus the initial bank balance,
and every subsequent transfer period must be value-neutral against its own
sales. -/
theorem mgo_rolling_bank_budget (m : MGOInstance) (sol : MGOSol)
    (h : mgoFeasible m sol) :
    (isum m.players (fun i => sol.I i m.transferGws.headI * m.cost i)
      ≤ isum m.players (fun i => sol.O i m.transferGws.headI * m.cost i)
          + m.initialMoneyItb) ∧
    ∀ t ∈ m.transferGws.drop 1,
      isum m.players (fun i => sol.I i t * m.cost i)
        ≤ isum m.players (fun i => sol.O i t * m.cost i) := by
  obtain ⟨-, -, -, -, -, -, -, -, -, -, hG1, hG2, -, -, -⟩ := h
  exact ⟨hG1.2, hG2⟩

/-- Claim C4 witness: the rolling-bank budget inequalities on the concrete
two-gameweek scenario (first transfer period is gameweek 2). -/
theorem mgo_rolling_bank_budget_witness :
    mgoFeasible mgoInst0 mgoSol0 ∧
    isum mgoInst0.players
        (fun i => mgoSol0.I i mgoInst0.transferGws.headI * mgoInst0.cost i)
      ≤ isum mgoInst0.players
          (fun i => mgoSol0.O i mgoInst0.transferGws.headI * mgoInst0.cost i)
        + mgoInst0.initialMoneyItb :=
  ⟨by decide, (mgo_rolling_bank_budget mgoInst0 mgoSol0 (by decide)).1⟩

/-- Claim C5: squad size 15 together with the position caps 2/5/5/3 (which
sum to 15) forces exactly 2 keepers, 5 defenders, 5 midfielders and
3 forwards in every period, provided every player's position id is one
of 1–4 (the fixed position enum of the data model). -/
theorem mgo_exact_squad_composition (m : MGOInstance) (sol : MGOSol)
    (h : mgoFeasible m sol)
    (hpos : ∀ i ∈ m.players,
      m.pos i = 1 ∨ m.pos i = 2 ∨ m.pos i = 3 ∨ m.pos i = 4) :
    ∀ t ∈ m.allGws,
      isum (m.players.filter (fun i => m.pos i == 1)) (fun i => sol.X i t) = 2 ∧
      isum (m.players.filter (fun i => m.pos i == 2)) (fun i => sol.X i t) = 5 ∧
      isum (m.players.filter (fun i => m.pos i == 3)) (fun i => sol.X i t) = 5 ∧
      isum (m.players.filter (fun i => m.pos i == 4)) (fun i => sol.X i t) = 3 := by
  obtain ⟨hdom, -, -, -, -, -, -, -, -, -, -, -, hH, -, -⟩ := h
  intro t ht
  have hsplit := isum_pos_partition m.players m.pos (fun i => sol.X i t) hpos
  have h15 := (hH t ht).1
  have hc1 := (hH t ht).2 (1, 2) (by decide)
  have hc2 := (hH t ht).2 (2, 5) (by decide)
  have hc3 := (hH t ht).2 (3, 5) (by decide)
  have hc4 := (hH t ht).2 (4, 3) (by decide)
  have hx : ∀ pid : Nat, 0 ≤ isum (m.players.filter (fun i => m.pos i == pid))
      (fun i => sol.X i t) := by
    intro pid
    refine isum_nonneg fun i hi => ?_
    have hip : i ∈ m.players := (List.mem_filter.1 hi).1
    exact ((hdom i hip t ht).1).1
  have h1 := hx 1
  have h2 := hx 2
  have h3 := hx 3
  have h4 := hx 4
  simp only [posLimits] at hc1 hc2 hc3 hc4
  refine ⟨by omega, by omega, by omega, by omega⟩

/-- Claim C5 witness: the exact 2/5/5/3 composition in gameweek 1 of the
concrete scenario. -/
theorem mgo_exact_squad_composition_witness :
    mgoFeasible mgoInst0 mgoSol0 ∧
    isum (mgoInst0.players.filter (fun i => mgoInst0.pos i == 1))
        (fun i => mgoSol0.X i 1) = 2 ∧
    isum (mgoInst0.players.filter (fun i => mgoInst0.pos i == 2))
        (fun i => mgoSol0.X i 1) = 5 :=
  ⟨by decide,
    (mgo_exact_squad_composition mgoInst0 mgoSol0 (by decide) (by decide) 1
      (by decide)).1,
    (mgo_exact_squad_composition mgoInst0 mgoSol0 (by decide) (by decide) 1
      (by decide)).2.1⟩

/-! ## Single-period squad selector
(`run_pulp_optimization` in `fantacy_pulp.py` and `optimize_squad` in
`optimization_solvers/solve_squad_optimization.py`) -/

/-- A catalogue entry as prepared for the squad selectors: id, position id,
team id, price (integer tenths), forecast score, availability status
(`"a"` means available; `optimize_squad` reads the score from the `rppm`
key, `run_pulp_optimization` from `matr` — only one score field is needed
here since no constraint mentions scores). -/
structure SqPlayer where
  id : Nat
  pos : Nat
  teamId : Nat
  price : Int
  matr : ℚ
  status : String

/-- Constraint set of `run_pulp_optimization`: 15 players, budget cap,
exact position quotas `{1: 2, 2: 5, 3: 5, 4: 3}`, at most 3 per team
(the source iterates the set of team ids of the catalogue; quantifying
over the list of team ids has the same members).  `LpBinary` gives the
0/1 bounds.  There is no availability constraint in this variant. -/
def rpoFeasible (pls : List SqPlayer) (budgetCap : Int) (sel : Nat → Int) : Prop :=
  (∀ p ∈ pls, 0 ≤ sel p.id ∧ sel p.id ≤ 1) ∧
  isum pls (fun p => sel p.id) = 15 ∧
  isum pls (fun p => p.price * sel p.id) ≤ budgetCap ∧
  (∀ pl ∈ posLimits,
    isum (pls.filter (fun p => p.pos == pl.1)) (fun p => sel p.id) = pl.2) ∧
  (∀ tm ∈ pls.map (fun p => p.teamId),
    isum (pls.filter (fun p => p.teamId == tm)) (fun p => sel p.id) ≤ 3)

instance (pls : List SqPlayer) (b : Int) (sel : Nat → Int) :
    Decidable (rpoFeasible pls b sel) := by
  unfold rpoFeasible
  infer_instance

/-- Constraint set of `optimize_squad`: same as `rpoFeasible` plus the
hard exclusion of players whose status is not `'a'` (their selection
variable is forced to 0 by an equality constraint). -/
def osqFeasible (pls : List SqPlayer) (budget : Int) (sel : Nat → Int) : Prop :=
  (∀ p ∈ pls, 0 ≤ sel p.id ∧ sel p.id ≤ 1) ∧
  (∀ p ∈ pls, p.status ≠ "a" → sel p.id = 0) ∧
  isum pls (fun p => sel p.id) = 15 ∧
  isum pls (fun p => sel p.id * p.price) ≤ budget ∧
  (∀ pl ∈ posLimits,
    isum (pls.filter (fun p => p.pos == pl.1)) (fun p => sel p.id) = pl.2) ∧
  (∀ tm ∈ pls.map (fun p => p.teamId),
    isum (pls.filter (fun p => p.teamId == tm)) (fun p => sel p.id) ≤ 3)

/-- PuLP terminal status codes: `LpStatusOptimal = 1`,
`LpStatusInfeasible = -1` (the `LpStatus` dict maps these to the strings
`'Optimal'` / `'Infeasible'` for display). -/
def LpStatusOptimalCode : Int := 1

def LpStatusInfeasibleCode : Int := -1

/-- What `prob.solve()` leaves behind: a terminal status and the variable
values the solver wrote back (meaningless unless the status is optimal). -/
structure LpOutcome where
  status : Int
  assign : Nat → Int

/-- The value of `run_pulp_optimization`: a status plus the selected squad
(the reported objective value entry is omitted; no claim concerns it). -/
structure SquadResult where
  status : Int
  squad : List SqPlayer

/-- Result behaviour of `run_pulp_optimization`: only under
`prob.status == LpStatusOptimal` does it extract the players whose
variable is 1; otherwise it returns the status and an empty squad. -/
def runPulpOptimization (pls : List SqPlayer) (outcome : LpOutcome) :
    SquadResult :=
  if outcome.status = LpStatusOptimalCode then
    { status := outcome.status,
      squad := pls.filter (fun p => outcome.assign p.id == 1) }
  else
    { status := outcome.status, squad := [] }

/-- Result behaviour of `optimize_squad`: it extracts
`selected_players` from the written-back variable values with **no status
check whatsoever** and returns the bare list — there is no status in its
return value. -/
def optimizeSquad (pls : List SqPlayer) (outcome : LpOutcome) :
    List SqPlayer :=
  pls.filter (fun p => outcome.assign p.id == 1)

theorem isum_le_length {α : Type} {l : List α} {f : α → Int}
    (h : ∀ a ∈ l, f a ≤ 1) : isum l f ≤ (l.length : Int) := by
  induction l with
  | nil => simp [isum]
  | cons a l ih =>
    rw [isum_cons]
    have h1 := h a (by simp)
    have h2 := ih fun x hx => h x (by simp [hx])
    simp only [List.length_cons]
    push_cast
    omega

/-- Catalogue entry builder for the concrete selector scenarios. -/
def mkSqPlayer (i : Nat) : SqPlayer where
  id := i
  pos := if i < 2 then 1 else if i < 7 then 2 else if i < 12 then 3 else 4
  teamId := i % 5
  price := 60
  matr := 1
  status := "a"

/-- A 14-player catalogue: no 15-player squad can exist over it. -/
def sqPlayers14 : List SqPlayer := (List.range 14).map mkSqPlayer

/-- A solver outcome with a non-optimal status whose written-back variable
values select every player (CBC leaves arbitrary values on infeasible
problems; `optimize_squad` reads them regardless). -/
def badOutcome : LpOutcome where
  status := LpStatusInfeasibleCode
  assign := fun _ => 1

/-- Claim C6: on an infeasible input (14 players, so no 15-player squad
exists), `optimize_squad` returns the whole 14-player list — a partial,
constraint-violating squad — and its return value carries no status at
all, contradicting "report infeasible — do not silently return a partial
squad".  `run_pulp_optimization`, by contrast, complies: it surfaces the
non-optimal status and returns an empty squad. -/
theorem optimize_squad_silent_partial :
    (∀ sel : Nat → Int, ¬ osqFeasible sqPlayers14 1000 sel) ∧
    optimizeSquad sqPlayers14 badOutcome = sqPlayers14 ∧
    sqPlayers14.length = 14 ∧
    runPulpOptimization sqPlayers14 badOutcome =
      { status := LpStatusInfeasibleCode, squad := [] } := by
  refine ⟨?_, ?_, by decide, ?_⟩
  · intro sel h
    obtain ⟨hbin, -, h15, -⟩ := h
    have hle := isum_le_length (l := sqPlayers14) (f := fun p => sel p.id)
      (fun p hp => (hbin p hp).2)
    have hlen : sqPlayers14.length = 14 := by decide
    rw [h15, hlen] at hle
    omega
  · exact List.filter_eq_self.mpr fun a _ => rfl
  · rfl

/-! ## Budget monotonicity of the squad selector (claim C9) -/

/-- The 0/1 selection assignment induced by a set of chosen player ids. -/
def selOf (s : Finset Nat) : Nat → Int :=
  fun i => if i ∈ s then 1 else 0

/-- All feasible squad selections of `run_pulp_optimization` over a given
catalogue and budget cap, as subsets of the catalogue's id set. -/
def feasibleSquadSets (pls : List SqPlayer) (b : Int) : Finset (Finset Nat) :=
  ((pls.map (fun p => p.id)).toFinset.powerset).filter
    (fun s => rpoFeasible pls b (selOf s))

/-- `Total_MATR_Score`, the objective of `run_pulp_optimization`, at a
given selection. -/
def rpoObjective (pls : List SqPlayer) (sel : Nat → Int) : ℚ :=
  qsum pls (fun p => p.matr * (sel p.id : ℚ))

/-- The optimal objective value of `run_pulp_optimization`: the supremum
of the objective over all feasible selections (`⊥` when infeasible). -/
def rpoOptValue (pls : List SqPlayer) (b : Int) : WithBot ℚ :=
  (feasibleSquadSets pls b).sup (fun s => (rpoObjective pls (selOf s) : WithBot ℚ))

/-- Claim C9: with the asset universe fixed, raising the flat budget cap
never decreases the optimal objective value of the single-period squad
selector (weak monotonicity).  The nonemptiness hypothesis mirrors the
claim's presupposition that an optimal value exists at the smaller
budget. -/
theorem rpo_budget_monotone (pls : List SqPlayer) (b1 b2 : Int)
    (hb : b1 ≤ b2) (_hne : (feasibleSquadSets pls b1).Nonempty) :
    rpoOptValue pls b1 ≤ rpoOptValue pls b2 := by
  refine Finset.sup_mono fun s hs => ?_
  unfold feasibleSquadSets at hs ⊢
  rw [Finset.mem_filter] at hs ⊢
  obtain ⟨hpow, hbin, h15, hbud, hposq, hteam⟩ := hs
  exact ⟨hpow, hbin, h15, le_trans hbud hb, hposq, hteam⟩

/-- A 15-player catalogue admitting exactly one feasible squad. -/
def sqPlayers15 : List SqPlayer := (List.range 15).map mkSqPlayer

/-- The id set of the full 15-player catalogue. -/
def fullSel15 : Finset Nat := (List.range 15).toFinset

/-- Claim C9 witness: budgets 93.0 ≤ 95.0 over the concrete 15-player
catalogue (total price 90.0, so the full squad is feasible at both). -/
theorem rpo_budget_monotone_witness :
    (930 : Int) ≤ 950 ∧ (feasibleSquadSets sqPlayers15 930).Nonempty ∧
    rpoOptValue sqPlayers15 930 ≤ rpoOptValue sqPlayers15 950 :=
  ⟨by decide,
    ⟨fullSel15, Finset.mem_filter.mpr
      ⟨Finset.mem_powerset.mpr (by decide), by decide⟩⟩,
    rpo_budget_monotone sqPlayers15 930 950 (by decide)
      ⟨fullSel15, Finset.mem_filter.mpr
        ⟨Finset.mem_powerset.mpr (by decide), by decide⟩⟩⟩

/-! ## Single-period starting-XI selector (`run_starting_xi_optimization`) -/

/-- A squad member as consumed by `run_starting_xi_optimization`: id,
position id (`pos`) and single-period score (`matr`). -/
structure XiPlayer where
  id : Nat
  pos : Nat
  matr : ℚ
deriving DecidableEq

/-- The constraint set of `run_starting_xi_optimization` over the three
binary variable families `Starter`, `Captain`, `ViceCaptain` (indexed by
player id): 11 starters; one captain, a starter; one vice-captain, a
starter; captain and vice-captain mutually exclusive per player; exactly
1 keeper, 3–5 defenders, 2–5 midfielders, 1–3 forwards among the
starters.  Sums run over the input list, matching the source's iteration
over `player_ids` with its id-keyed data map. -/
def xiFeasible (squad : List XiPlayer) (st cap vcap : Nat → Int) : Prop :=
  (∀ p ∈ squad,
      (0 ≤ st p.id ∧ st p.id ≤ 1) ∧ (0 ≤ cap p.id ∧ cap p.id ≤ 1) ∧
      (0 ≤ vcap p.id ∧ vcap p.id ≤ 1)) ∧
  isum squad (fun p => st p.id) = 11 ∧
  isum squad (fun p => cap p.id) = 1 ∧
  (∀ p ∈ squad, cap p.id ≤ st p.id) ∧
  isum squad (fun p => vcap p.id) = 1 ∧
  (∀ p ∈ squad, vcap p.id ≤ st p.id) ∧
  (∀ p ∈ squad, cap p.id + vcap p.id ≤ 1) ∧
  isum (squad.filter (fun p => p.pos == 1)) (fun p => st p.id) = 1 ∧
  (3 ≤ isum (squad.filter (fun p => p.pos == 2)) (fun p => st p.id) ∧
    isum (squad.filter (fun p => p.pos == 2)) (fun p => st p.id) ≤ 5) ∧
  (2 ≤ isum (squad.filter (fun p => p.pos == 3)) (fun p => st p.id) ∧
    isum (squad.filter (fun p => p.pos == 3)) (fun p => st p.id) ≤ 5) ∧
  (1 ≤ isum (squad.filter (fun p => p.pos == 4)) (fun p => st p.id) ∧
    isum (squad.filter (fun p => p.pos == 4)) (fun p => st p.id) ≤ 3)

instance (squad : List XiPlayer) (st cap vcap : Nat → Int) :
    Decidable (xiFeasible squad st cap vcap) := by
  unfold xiFeasible
  infer_instance

/-- `Total_Starting_XI_Score`, the objective of
`run_starting_xi_optimization`; its value at the solved assignment is
what the function reports as `max_xi_score`. -/
def xiObjective (squad : List XiPlayer) (st cap : Nat → Int) : ℚ :=
  qsum squad (fun p => p.matr * (st p.id : ℚ) + p.matr * (cap p.id : ℚ))

theorem qsum_add {α : Type} (l : List α) (f g : α → ℚ) :
    qsum l (fun a => f a + g a) = qsum l f + qsum l g := by
  induction l with
  | nil => simp [qsum]
  | cons a l ih => rw [qsum_cons, qsum_cons, qsum_cons, ih]; ring

/-- A weighted sum against a 0/1-valued function collapses to the sum of
the weights over the entries where the function is 1. -/
theorem qsum_indicator {α : Type} (l : List α) (f : α → Int) (g : α → ℚ)
    (hbin : ∀ a ∈ l, f a = 0 ∨ f a = 1) :
    qsum l (fun a => g a * (f a : ℚ)) =
      qsum (l.filter (fun a => f a == 1)) g := by
  induction l with
  | nil => simp [qsum]
  | cons a l ih =>
    have hl : ∀ x ∈ l, f x = 0 ∨ f x = 1 := fun x hx => hbin x (by simp [hx])
    rcases hbin a (by simp) with h | h <;>
      simp [List.filter_cons, h, qsum_cons, ih hl]

/-- A sum of a 0/1-valued function counts the entries where it is 1. -/
theorem isum_binary_count {α : Type} (l : List α) (f : α → Int)
    (hbin : ∀ a ∈ l, f a = 0 ∨ f a = 1) :
    isum l f = ((l.filter (fun a => f a == 1)).length : Int) := by
  induction l with
  | nil => simp [isum]
  | cons a l ih =>
    have hl : ∀ x ∈ l, f x = 0 ∨ f x = 1 := fun x hx => hbin x (by simp [hx])
    rcases hbin a (by simp) with h | h
    · simp [List.filter_cons, h, isum_cons, ih hl]
    · simp [List.filter_cons, h, isum_cons, ih hl]
      omega

theorem list_eq_singleton_of_length_one {α : Type} {l : List α} {a : α}
    (h : l.length = 1) (ha : a ∈ l) : l = [a] := by
  match l, h with
  | [x], _ =>
    have : a = x := by simpa using ha
    rw [this]

/-- Claim C7: whenever the starting-XI selector's constraints hold of an
assignment (as they do of any optimal solve), the objective value it
reports equals the sum of the scores of the 11 selected starters plus
the score of the selected captain — the captain's score is counted
exactly twice in total, and the vice-captain contributes no extra term. -/
theorem xi_objective_starters_plus_captain (squad : List XiPlayer)
    (st cap vcap : Nat → Int) (q : XiPlayer)
    (h : xiFeasible squad st cap vcap) (hq : q ∈ squad)
    (hqcap : cap q.id = 1) :
    xiObjective squad st cap =
      qsum (squad.filter (fun p => st p.id == 1)) (fun p => p.matr) + q.matr ∧
    (squad.filter (fun p => st p.id == 1)).length = 11 := by
  obtain ⟨hdom, h11, hcap1, -, -, -, -, -⟩ := h
  have hstbin : ∀ p ∈ squad, st p.id = 0 ∨ st p.id = 1 := by
    intro p hp
    have := (hdom p hp).1
    omega
  have hcapbin : ∀ p ∈ squad, cap p.id = 0 ∨ cap p.id = 1 := by
    intro p hp
    have := (hdom p hp).2.1
    omega
  have hobj : xiObjective squad st cap =
      qsum squad (fun p => p.matr * (st p.id : ℚ)) +
      qsum squad (fun p => p.matr * (cap p.id : ℚ)) := by
    unfold xiObjective
    exact qsum_add squad _ _
  have hstpart := qsum_indicator squad (fun p => st p.id) (fun p => p.matr) hstbin
  have hcappart := qsum_indicator squad (fun p => cap p.id) (fun p => p.matr) hcapbin
  have hcapcount := isum_binary_count squad (fun p => cap p.id) hcapbin
  rw [hcap1] at hcapcount
  have hcaplen : (squad.filter (fun p => cap p.id == 1)).length = 1 := by
    exact_mod_cast hcapcount.symm
  have hqmem : q ∈ squad.filter (fun p => cap p.id == 1) :=
    List.mem_filter.mpr ⟨hq, by simp [hqcap]⟩
  have hcapfilter := list_eq_singleton_of_length_one hcaplen hqmem
  have hstcount := isum_binary_count squad (fun p => st p.id) hstbin
  rw [h11] at hstcount
  constructor
  · rw [hobj, hstpart, hcappart, hcapfilter]
    simp [qsum]
  · exact_mod_cast hstcount.symm

/-- Concrete 15-player squad for the starting-XI scenarios:
positions 2/5/5/3, every score 1. -/
def xiSquad0 : List XiPlayer :=
  (List.range 15).map fun i =>
    { id := i
      pos := if i < 2 then 1 else if i < 7 then 2 else if i < 12 then 3 else 4
      matr := 1 }

/-- Starter indicator for `xiSquad0`: the 1-4-4-2 lineup
`0, 2, 3, 4, 5, 7, 8, 9, 10, 12, 13`. -/
def xiSt0 : Nat → Int :=
  fun i => if i ∈ [0, 2, 3, 4, 5, 7, 8, 9, 10, 12, 13] then 1 else 0

/-- Captain indicator for `xiSquad0`: player 0. -/
def xiCap0 : Nat → Int := fun i => if i = 0 then 1 else 0

/-- Vice-captain indicator for `xiSquad0`: player 2. -/
def xiVcap0 : Nat → Int := fun i => if i = 2 then 1 else 0

/-- Claim C7 witness: the objective decomposition on the concrete squad
with its 1-4-4-2 assignment, captained by player 0. -/
theorem xi_objective_starters_plus_captain_witness :
    xiFeasible xiSquad0 xiSt0 xiCap0 xiVcap0 ∧
    (⟨0, 1, 1⟩ : XiPlayer) ∈ xiSquad0 ∧ xiCap0 0 = 1 ∧
    xiObjective xiSquad0 xiSt0 xiCap0 =
      qsum (xiSquad0.filter (fun p => xiSt0 p.id == 1)) (fun p => p.matr) +
        (⟨0, 1, 1⟩ : XiPlayer).matr :=
  ⟨by decide, by decide, by decide,
    (xi_objective_starters_plus_captain xiSquad0 xiSt0 xiCap0 xiVcap0
      ⟨0, 1, 1⟩ (by decide) (by decide) (by decide)).1⟩

/-! ## Feasibility of the starting-XI model for any 2/5/5/3 squad
(claim C8) -/

/-- Within a squad whose ids are distinct, the id determines the player. -/
theorem xi_id_inj {squad : List XiPlayer}
    (hnd : (squad.map (fun p => p.id)).Nodup) {a b : XiPlayer}
    (ha : a ∈ squad) (hb : b ∈ squad) (hid : a.id = b.id) : a = b :=
  List.inj_on_of_nodup_map hnd ha hb hid

/-- Under distinct ids, id-membership in the projection of a selection
list coincides with membership in the list itself. -/
theorem xi_id_mem_map_iff {squad : List XiPlayer}
    (hnd : (squad.map (fun p => p.id)).Nodup) {p : XiPlayer}
    (hp : p ∈ squad) {L : List XiPlayer} (hL : ∀ x ∈ L, x ∈ squad) :
    p.id ∈ L.map (fun x => x.id) ↔ p ∈ L := by
  constructor
  · intro h
    obtain ⟨x, hxL, hxid⟩ := List.mem_map.1 h
    rwa [xi_id_inj hnd (hL x hxL) hp hxid] at hxL
  · exact fun h => List.mem_map_of_mem _ h

/-- Counting the members of a distinct-id roster whose id lies in a
distinct list of ids drawn from the roster. -/
theorem length_filter_id_mem {squad : List XiPlayer} {S : List Nat}
    (hnd : (squad.map (fun p => p.id)).Nodup) (hS : S.Nodup)
    (hsub : ∀ s ∈ S, s ∈ squad.map (fun p => p.id)) :
    (squad.filter (fun p => decide (p.id ∈ S))).length = S.length := by
  have hFsub : List.Sublist (squad.filter (fun p => decide (p.id ∈ S))) squad :=
    List.filter_sublist squad
  have hFnd : ((squad.filter (fun p => decide (p.id ∈ S))).map
      (fun p => p.id)).Nodup :=
    List.Nodup.sublist (hFsub.map (fun p => p.id)) hnd
  have hset : ((squad.filter (fun p => decide (p.id ∈ S))).map
      (fun p => p.id)).toFinset = S.toFinset := by
    ext x
    simp only [List.mem_toFinset, List.mem_map, List.mem_filter,
      decide_eq_true_eq]
    constructor
    · rintro ⟨p, ⟨-, hpS⟩, rfl⟩
      exact hpS
    · intro hxS
      obtain ⟨p, hpsq, hpid⟩ := List.mem_map.1 (hsub x hxS)
      exact ⟨p, ⟨hpsq, by rwa [hpid]⟩, hpid⟩
  have h1 := List.toFinset_card_of_nodup hFnd
  have h2 := List.toFinset_card_of_nodup hS
  rw [hset, h2, List.length_map] at h1
  exact h1.symm

/-- A membership-in-ids indicator is the 0/1 function whose sum counts
the filtered roster. -/
theorem isum_id_indicator (l : List XiPlayer) (S : List Nat) :
    isum l (fun p => if p.id ∈ S then (1 : Int) else 0) =
      ((l.filter (fun p => decide (p.id ∈ S))).length : Int) := by
  have hbin : ∀ p ∈ l, (if p.id ∈ S then (1 : Int) else 0) = 0 ∨
      (if p.id ∈ S then (1 : Int) else 0) = 1 := by
    intro p _
    by_cases h : p.id ∈ S <;> simp [h]
  rw [isum_binary_count l _ hbin]
  have hfe : l.filter (fun a => (if a.id ∈ S then (1 : Int) else 0) == 1) =
      l.filter (fun p => decide (p.id ∈ S)) :=
    List.filter_congr fun p _ => by by_cases h : p.id ∈ S <;> simp [h]
  rw [hfe]

/-- The canonical 1-4-4-2 pick from a squad: one keeper, four defenders,
four midfielders, two forwards, each taken in squad order. -/
def xiPick (squad : List XiPlayer) : List XiPlayer :=
  (squad.filter (fun p => p.pos == 1)).take 1 ++
  (squad.filter (fun p => p.pos == 2)).take 4 ++
  (squad.filter (fun p => p.pos == 3)).take 4 ++
  (squad.filter (fun p => p.pos == 4)).take 2

/-- The canonical captain choice: the picked keeper. -/
def xiPickCap (squad : List XiPlayer) : List XiPlayer :=
  (squad.filter (fun p => p.pos == 1)).take 1

/-- The canonical vice-captain choice: the first picked defender. -/
def xiPickVice (squad : List XiPlayer) : List XiPlayer :=
  (squad.filter (fun p => p.pos == 2)).take 1

/-- Starter indicator induced by the canonical pick. -/
def xiStOf (squad : List XiPlayer) : Nat → Int :=
  fun i => if i ∈ (xiPick squad).map (fun x => x.id) then 1 else 0

/-- Captain indicator induced by the canonical pick. -/
def xiCapOf (squad : List XiPlayer) : Nat → Int :=
  fun i => if i ∈ (xiPickCap squad).map (fun x => x.id) then 1 else 0

/-- Vice-captain indicator induced by the canonical pick. -/
def xiViceOf (squad : List XiPlayer) : Nat → Int :=
  fun i => if i ∈ (xiPickVice squad).map (fun x => x.id) then 1 else 0

/-- Counting the canonical pick inside one position class: if membership
of a position-`pid` squad member's id in the pick reduces to membership
in the pick's own `pid` segment (of `k` players), the starter sum over
that position class is exactly `k`. -/
theorem xi_pos_count (squad : List XiPlayer)
    (hnd : (squad.map (fun p => p.id)).Nodup) (pid k : Nat)
    (hk : k ≤ (squad.filter (fun q => q.pos == pid)).length)
    (hiff : ∀ p ∈ squad.filter (fun q => q.pos == pid),
      (p.id ∈ (xiPick squad).map (fun x => x.id) ↔
        p.id ∈ ((squad.filter (fun q => q.pos == pid)).take k).map
          (fun x => x.id))) :
    isum (squad.filter (fun q => q.pos == pid))
      (fun p => if p.id ∈ (xiPick squad).map (fun x => x.id)
        then (1 : Int) else 0) = k := by
  have hposnd : ((squad.filter (fun q => q.pos == pid)).map
      (fun p => p.id)).Nodup :=
    List.Nodup.sublist ((List.filter_sublist squad).map (fun p => p.id)) hnd
  have hsegnd : (((squad.filter (fun q => q.pos == pid)).take k).map
      (fun x => x.id)).Nodup :=
    List.Nodup.sublist
      (((squad.filter (fun q => q.pos == pid)).take_sublist k).map
        (fun x => x.id)) hposnd
  have hsub : ∀ s ∈ ((squad.filter (fun q => q.pos == pid)).take k).map
      (fun x => x.id),
      s ∈ (squad.filter (fun q => q.pos == pid)).map (fun p => p.id) := by
    intro s hs
    obtain ⟨x, hx, rfl⟩ := List.mem_map.1 hs
    exact List.mem_map_of_mem _ (List.take_subset _ _ hx)
  have hfe : (squad.filter (fun q => q.pos == pid)).filter
        (fun p => decide (p.id ∈ (xiPick squad).map (fun x => x.id))) =
      (squad.filter (fun q => q.pos == pid)).filter
        (fun p => decide (p.id ∈
          ((squad.filter (fun q => q.pos == pid)).take k).map
            (fun x => x.id))) :=
    List.filter_congr fun p hp => decide_eq_decide.mpr (hiff p hp)
  rw [isum_id_indicator, hfe, length_filter_id_mem hposnd hsegnd hsub,
    List.length_map, List.length_take]
  omega

/-- Claim C8: every 15-player squad with positional composition exactly
2/5/5/3 (and distinct player ids) admits an assignment satisfying every
constraint of `run_starting_xi_optimization` — a 1-4-4-2 lineup with the
keeper as captain and a defender as vice-captain — so the infeasible
branch of the selector is unreachable for squads satisfying the squad
invariants. -/
theorem xi_formation_always_feasible (squad : List XiPlayer)
    (hnd : (squad.map (fun p => p.id)).Nodup)
    (h1 : (squad.filter (fun p => p.pos == 1)).length = 2)
    (h2 : (squad.filter (fun p => p.pos == 2)).length = 5)
    (h3 : (squad.filter (fun p => p.pos == 3)).length = 5)
    (h4 : (squad.filter (fun p => p.pos == 4)).length = 3) :
    ∃ st cap vcap : Nat → Int, xiFeasible squad st cap vcap := by
  have hchain : ∀ (P : XiPlayer → Bool) (k : Nat),
      List.Sublist ((squad.filter P).take k) squad :=
    fun P k => ((squad.filter P).take_sublist k).trans (List.filter_sublist squad)
  have hsegmem : ∀ (pid : Nat) (k : Nat),
      ∀ x ∈ (squad.filter (fun p => p.pos == pid)).take k,
        x ∈ squad ∧ x.pos = pid := by
    intro pid k x hx
    have hxf : x ∈ squad.filter (fun p => p.pos == pid) :=
      List.take_subset _ _ hx
    exact ⟨List.mem_of_mem_filter hxf, by simpa using List.of_mem_filter hxf⟩
  have hndseg : ∀ (P : XiPlayer → Bool) (k : Nat),
      (((squad.filter P).take k).map (fun x => x.id)).Nodup :=
    fun P k => List.Nodup.sublist ((hchain P k).map (fun x => x.id)) hnd
  have hsqnd : squad.Nodup := hnd.of_map
  have hndsegel : ∀ (P : XiPlayer → Bool) (k : Nat),
      ((squad.filter P).take k).Nodup :=
    fun P k => List.Nodup.sublist (hchain P k) hsqnd
  have hstar : ∀ x ∈ xiPick squad, x ∈ squad := by
    intro x hx
    unfold xiPick at hx
    simp only [List.mem_append] at hx
    rcases hx with ((hx | hx) | hx) | hx
    · exact (hsegmem 1 1 x hx).1
    · exact (hsegmem 2 4 x hx).1
    · exact (hsegmem 3 4 x hx).1
    · exact (hsegmem 4 2 x hx).1
  have hlen1 : ((squad.filter (fun p => p.pos == 1)).take 1).length = 1 := by
    simp [List.length_take, h1]
  have hlen2 : ((squad.filter (fun p => p.pos == 2)).take 4).length = 4 := by
    simp [List.length_take, h2]
  have hlen3 : ((squad.filter (fun p => p.pos == 3)).take 4).length = 4 := by
    simp [List.length_take, h3]
  have hlen4 : ((squad.filter (fun p => p.pos == 4)).take 2).length = 2 := by
    simp [List.length_take, h4]
  have hlenv : ((squad.filter (fun p => p.pos == 2)).take 1).length = 1 := by
    simp [List.length_take, h2]
  have hndstar : (xiPick squad).Nodup := by
    unfold xiPick
    rw [List.nodup_append, List.nodup_append, List.nodup_append]
    refine ⟨⟨⟨hndsegel _ 1, hndsegel _ 4, ?_⟩, hndsegel _ 4, ?_⟩,
      hndsegel _ 2, ?_⟩
    · intro x hx1 hx2
      have := (hsegmem 1 1 x hx1).2
      have := (hsegmem 2 4 x hx2).2
      omega
    · intro x hx12 hx3
      have h3' := (hsegmem 3 4 x hx3).2
      rcases List.mem_append.1 hx12 with hx | hx
      · have := (hsegmem 1 1 x hx).2
        omega
      · have := (hsegmem 2 4 x hx).2
        omega
    · intro x hx123 hx4
      have hf := (hsegmem 4 2 x hx4).2
      rcases List.mem_append.1 hx123 with hx12 | hx
      · rcases List.mem_append.1 hx12 with hx | hx
        · have := (hsegmem 1 1 x hx).2
          omega
        · have := (hsegmem 2 4 x hx).2
          omega
      · have := (hsegmem 3 4 x hx).2
        omega
  have hndsIds : ((xiPick squad).map (fun x => x.id)).Nodup :=
    hndstar.map_on fun x hx y hy hxy =>
      xi_id_inj hnd (hstar x hx) (hstar y hy) hxy
  have hsubsIds : ∀ s ∈ (xiPick squad).map (fun x => x.id),
      s ∈ squad.map (fun p => p.id) := by
    intro s hs
    obtain ⟨x, hx, rfl⟩ := List.mem_map.1 hs
    exact List.mem_map_of_mem _ (hstar x hx)
  have hsubcIds : ∀ s ∈ (xiPickCap squad).map (fun x => x.id),
      s ∈ squad.map (fun p => p.id) := by
    intro s hs
    obtain ⟨x, hx, rfl⟩ := List.mem_map.1 hs
    exact List.mem_map_of_mem _ (hsegmem 1 1 x hx).1
  have hsubvIds : ∀ s ∈ (xiPickVice squad).map (fun x => x.id),
      s ∈ squad.map (fun p => p.id) := by
    intro s hs
    obtain ⟨x, hx, rfl⟩ := List.mem_map.1 hs
    exact List.mem_map_of_mem _ (hsegmem 2 1 x hx).1
  have hsIdslen : ((xiPick squad).map (fun x => x.id)).length = 11 := by
    unfold xiPick
    simp only [List.length_map, List.length_append]
    omega
  -- segment-membership characterization inside each position class
  have hiff1 : ∀ p ∈ squad, p.pos = 1 →
      (p ∈ xiPick squad ↔ p ∈ (squad.filter (fun q => q.pos == 1)).take 1) := by
    intro p _ hpos
    constructor
    · intro hps
      unfold xiPick at hps
      rcases List.mem_append.1 hps with h12 | hx
      · rcases List.mem_append.1 h12 with h11 | hx
        · rcases List.mem_append.1 h11 with hx | hx
          · exact hx
          · have := (hsegmem 2 4 p hx).2
            omega
        · have := (hsegmem 3 4 p hx).2
          omega
      · have := (hsegmem 4 2 p hx).2
        omega
    · intro hp1
      unfold xiPick
      exact List.mem_append_left _ (List.mem_append_left _
        (List.mem_append_left _ hp1))
  have hiff2 : ∀ p ∈ squad, p.pos = 2 →
      (p ∈ xiPick squad ↔ p ∈ (squad.filter (fun q => q.pos == 2)).take 4) := by
    intro p _ hpos
    constructor
    · intro hps
      unfold xiPick at hps
      rcases List.mem_append.1 hps with h12 | hx
      · rcases List.mem_append.1 h12 with h11 | hx
        · rcases List.mem_append.1 h11 with hx | hx
          · have := (hsegmem 1 1 p hx).2
            omega
          · exact hx
        · have := (hsegmem 3 4 p hx).2
          omega
      · have := (hsegmem 4 2 p hx).2
        omega
    · intro hp2
      unfold xiPick
      exact List.mem_append_left _ (List.mem_append_left _
        (List.mem_append_right _ hp2))
  have hiff3 : ∀ p ∈ squad, p.pos = 3 →
      (p ∈ xiPick squad ↔ p ∈ (squad.filter (fun q => q.pos == 3)).take 4) := by
    intro p _ hpos
    constructor
    · intro hps
      unfold xiPick at hps
      rcases List.mem_append.1 hps with h12 | hx
      · rcases List.mem_append.1 h12 with h11 | hx
        · rcases List.mem_append.1 h11 with hx | hx
          · have := (hsegmem 1 1 p hx).2
            omega
          · have := (hsegmem 2 4 p hx).2
            omega
        · exact hx
      · have := (hsegmem 4 2 p hx).2
        omega
    · intro hp3
      unfold xiPick
      exact List.mem_append_left _ (List.mem_append_right _ hp3)
  have hiff4 : ∀ p ∈ squad, p.pos = 4 →
      (p ∈ xiPick squad ↔ p ∈ (squad.filter (fun q => q.pos == 4)).take 2) := by
    intro p _ hpos
    constructor
    · intro hps
      unfold xiPick at hps
      rcases List.mem_append.1 hps with h12 | hx
      · rcases List.mem_append.1 h12 with h11 | hx
        · rcases List.mem_append.1 h11 with hx | hx
          · have := (hsegmem 1 1 p hx).2
            omega
          · have := (hsegmem 2 4 p hx).2
            omega
        · have := (hsegmem 3 4 p hx).2
          omega
      · exact hx
    · intro hp4
      unfold xiPick
      exact List.mem_append_right _ hp4
  -- id-level versions, as needed by `xi_pos_count`
  have hidiff : ∀ (pid k : Nat),
      (∀ p ∈ squad, p.pos = pid →
        (p ∈ xiPick squad ↔
          p ∈ (squad.filter (fun q => q.pos == pid)).take k)) →
      ∀ p ∈ squad.filter (fun q => q.pos == pid),
        (p.id ∈ (xiPick squad).map (fun x => x.id) ↔
          p.id ∈ ((squad.filter (fun q => q.pos == pid)).take k).map
            (fun x => x.id)) := by
    intro pid k hiff p hp
    have hpsq : p ∈ squad := List.mem_of_mem_filter hp
    have hppos : p.pos = pid := by simpa using List.of_mem_filter hp
    rw [xi_id_mem_map_iff hnd hpsq hstar,
      xi_id_mem_map_iff hnd hpsq (fun x hx => (hsegmem pid k x hx).1)]
    exact hiff p hpsq hppos
  -- inclusion of the captain/vice segments in the pick, at id level
  have hcsub : ∀ i ∈ (xiPickCap squad).map (fun x => x.id),
      i ∈ (xiPick squad).map (fun x => x.id) := by
    intro i hi
    obtain ⟨x, hx, rfl⟩ := List.mem_map.1 hi
    refine List.mem_map_of_mem _ ?_
    unfold xiPick
    exact List.mem_append_left _ (List.mem_append_left _
      (List.mem_append_left _ hx))
  have hvsub : ∀ i ∈ (xiPickVice squad).map (fun x => x.id),
      i ∈ (xiPick squad).map (fun x => x.id) := by
    intro i hi
    obtain ⟨x, hx, rfl⟩ := List.mem_map.1 hi
    refine List.mem_map_of_mem _ ?_
    have hx4 : x ∈ (squad.filter (fun p => p.pos == 2)).take 4 := by
      have : (squad.filter (fun p => p.pos == 2)).take 1 =
          ((squad.filter (fun p => p.pos == 2)).take 4).take 1 := by
        rw [List.take_take]
        norm_num
      refine List.take_subset 1 _ ?_
      rw [← this]
      exact hx
    unfold xiPick
    exact List.mem_append_left _ (List.mem_append_left _
      (List.mem_append_right _ hx4))
  refine ⟨xiStOf squad, xiCapOf squad, xiViceOf squad, ?_⟩
  unfold xiFeasible
  refine ⟨?_, ?_, ?_, ?_, ?_, ?_, ?_, ?_, ?_, ?_, ?_⟩
  · -- 0/1 bounds
    intro p hp
    simp only [xiStOf, xiCapOf, xiViceOf]
    split_ifs <;> omega
  · -- 11 starters
    simp only [xiStOf]
    rw [isum_id_indicator, length_filter_id_mem hnd hndsIds hsubsIds,
      hsIdslen]
    rfl
  · -- one captain
    have hndc : ((xiPickCap squad).map (fun x => x.id)).Nodup := hndseg _ 1
    simp only [xiCapOf]
    rw [isum_id_indicator, length_filter_id_mem hnd hndc hsubcIds]
    have : (xiPickCap squad).length = 1 := hlen1
    rw [List.length_map, this]
    rfl
  · -- captain is a starter
    intro p hp
    simp only [xiCapOf, xiStOf]
    by_cases hc : p.id ∈ (xiPickCap squad).map (fun x => x.id)
    · rw [if_pos hc, if_pos (hcsub _ hc)]
    · rw [if_neg hc]
      split_ifs <;> omega
  · -- one vice-captain
    have hndv : ((xiPickVice squad).map (fun x => x.id)).Nodup := hndseg _ 1
    simp only [xiViceOf]
    rw [isum_id_indicator, length_filter_id_mem hnd hndv hsubvIds]
    have : (xiPickVice squad).length = 1 := hlenv
    rw [List.length_map, this]
    rfl
  · -- vice-captain is a starter
    intro p hp
    simp only [xiViceOf, xiStOf]
    by_cases hv : p.id ∈ (xiPickVice squad).map (fun x => x.id)
    · rw [if_pos hv, if_pos (hvsub _ hv)]
    · rw [if_neg hv]
      split_ifs <;> omega
  · -- captain and vice-captain are different players
    intro p hp
    simp only [xiCapOf, xiViceOf]
    by_cases hc : p.id ∈ (xiPickCap squad).map (fun x => x.id)
    · by_cases hv : p.id ∈ (xiPickVice squad).map (fun x => x.id)
      · exfalso
        obtain ⟨a, ha, haid⟩ := List.mem_map.1 hc
        obtain ⟨b, hb, hbid⟩ := List.mem_map.1 hv
        have hab : a = b :=
          xi_id_inj hnd (hsegmem 1 1 a ha).1 (hsegmem 2 1 b hb).1
            (by rw [haid, hbid])
        have hpa := (hsegmem 1 1 a ha).2
        have hpb := (hsegmem 2 1 b hb).2
        rw [hab] at hpa
        omega
      · rw [if_pos hc, if_neg hv]
        omega
    · rw [if_neg hc]
      split_ifs <;> omega
  · -- exactly one keeper starts
    simp only [xiStOf]
    exact xi_pos_count squad hnd 1 1 (by omega) (hidiff 1 1 hiff1)
  · -- 3 to 5 defenders
    simp only [xiStOf]
    rw [xi_pos_count squad hnd 2 4 (by omega) (hidiff 2 4 hiff2)]
    omega
  · -- 2 to 5 midfielders
    simp only [xiStOf]
    rw [xi_pos_count squad hnd 3 4 (by omega) (hidiff 3 4 hiff3)]
    omega
  · -- 1 to 3 forwards
    simp only [xiStOf]
    rw [xi_pos_count squad hnd 4 2 (by omega) (hidiff 4 2 hiff4)]
    omega

/-- Claim C8 witness: the existence theorem applied to the concrete
2/5/5/3 squad. -/
theorem xi_formation_always_feasible_witness :
    ((xiSquad0.map (fun p => p.id)).Nodup ∧
      (xiSquad0.filter (fun p => p.pos == 1)).length = 2 ∧
      (xiSquad0.filter (fun p => p.pos == 2)).length = 5 ∧
      (xiSquad0.filter (fun p => p.pos == 3)).length = 5 ∧
      (xiSquad0.filter (fun p => p.pos == 4)).length = 3) ∧
    ∃ st cap vcap : Nat → Int, xiFeasible xiSquad0 st cap vcap :=
  ⟨⟨by decide, by decide, by decide, by decide, by decide⟩,
    xi_formation_always_feasible xiSquad0 (by decide) (by decide)
      (by decide) (by decide) (by decide)⟩

/-! ## Heuristic transfer suggester
(`suggest_transfers` in `optimization_solvers/suggest_squad_transfers.py`) -/

/-- A player as consumed by `suggest_transfers`.  `fixtureComparison` is
the per-gameweek fixture table already including the `.get(gw, 0)`
default of the source (absent gameweeks map to 0). -/
structure TrPlayer where
  id : Nat
  posId : Nat
  price : Int
  status : String
  rppm : ℚ
  fixtureComparison : Nat → ℚ

/-- `get_window_ev`: `rppm + (fixture_sum * weight)`. -/
def windowEv (p : TrPlayer) (gws : List Nat) (weight : ℚ) : ℚ :=
  p.rppm + (gws.map p.fixtureComparison).sum * weight

/-- One suggestion record `{"OUT": ..., "IN": ..., "Net_Gain": ...}`. -/
structure TransferSuggestion where
  outP : TrPlayer
  inP : TrPlayer
  netGain : ℚ

/-- `round(gain, 2)` of the source, modelled as exact rounding of the
rational to hundredths (Python rounds the nearest binary double,
half-to-even; the claims do not depend on the tie-breaking rule). -/
def round2 (q : ℚ) : ℚ :=
  (round (q * 100) : ℚ) / 100

/-- `max(candidates, key=lambda x: x['window_ev'])`: scan keeping the
first maximal element (Python's `max` replaces the best only on a
strictly greater key). -/
def pickBest (gws : List Nat) (w : ℚ) (c : TrPlayer) (rest : List TrPlayer) :
    TrPlayer :=
  rest.foldl (fun best q =>
    if windowEv best gws w < windowEv q gws w then q else best) c

/-- The `for i in range(num_transfers)` loop of `suggest_transfers`,
walking the list of loop indices.  `current_squad_sorted[i]` raises
`IndexError` when `i` is out of range; that aborts the whole call, which
is modelled by returning `none`. -/
def suggestLoop (sortedSquad pool : List TrPlayer) (gws : List Nat) (w : ℚ) :
    List Nat → Option (List TransferSuggestion)
  | [] => some []
  | i :: rest =>
    match sortedSquad.get? i with
    | none => none
    | some weak =>
      match suggestLoop sortedSquad pool gws w rest with
      | none => none
      | some tail =>
        match pool.filter (fun q =>
            q.posId == weak.posId && decide (q.price ≤ weak.price)) with
        | [] => some tail
        | c :: cs =>
          let best := pickBest gws w c cs
          let gain := windowEv best gws w - windowEv weak gws w
          if 0 < gain then
            some ({ outP := weak, inP := best, netGain := round2 gain } :: tail)
          else
            some tail

/-- `suggest_transfers`: split the catalogue into the current squad and
the available non-owned pool, sort the squad by ascending window EV
(Python's `sorted` is stable; a stable insertion sort by the same key
yields the same list), then try to replace the `num_transfers` weakest
members. -/
def suggestTransfers (currentIds : List Nat) (allPlayers : List TrPlayer)
    (futureGws : List Nat) (numTransfers : Nat) (weight : ℚ) :
    Option (List TransferSuggestion) :=
  let currentSquad := allPlayers.filter (fun p => decide (p.id ∈ currentIds))
  let availablePool := allPlayers.filter
    (fun p => !decide (p.id ∈ currentIds) && p.status == "a")
  let sortedSquad := currentSquad.insertionSort
    (fun a b => windowEv a futureGws weight ≤ windowEv b futureGws weight)
  suggestLoop sortedSquad availablePool futureGws weight
    (List.range numTransfers)

theorem pickBest_mem (gws : List Nat) (w : ℚ) (c : TrPlayer)
    (rest : List TrPlayer) : pickBest gws w c rest ∈ c :: rest := by
  induction rest generalizing c with
  | nil => simp [pickBest]
  | cons q qs ih =>
    have hstep : pickBest gws w c (q :: qs) =
        pickBest gws w (if windowEv c gws w < windowEv q gws w then q else c)
          qs := by
      simp [pickBest]
    rw [hstep]
    have hmem := ih (if windowEv c gws w < windowEv q gws w then q else c)
    rcases List.mem_cons.1 hmem with heq | hqs
    · rw [heq]
      split_ifs
      · exact List.mem_cons_of_mem _ (List.mem_cons_self _ _)
      · exact List.mem_cons_self _ _
    · exact List.mem_cons_of_mem _ (List.mem_cons_of_mem _ hqs)

theorem suggestLoop_sound (sortedSquad pool : List TrPlayer)
    (gws : List Nat) (w : ℚ) (idxs : List Nat)
    (l : List TransferSuggestion)
    (h : suggestLoop sortedSquad pool gws w idxs = some l) :
    l.length ≤ idxs.length ∧
    ∀ s ∈ l,
      s.outP ∈ sortedSquad ∧ s.inP ∈ pool ∧
      s.inP.posId = s.outP.posId ∧ s.inP.price ≤ s.outP.price ∧
      windowEv s.outP gws w < windowEv s.inP gws w := by
  induction idxs generalizing l with
  | nil =>
    simp only [suggestLoop, Option.some.injEq] at h
    subst h
    simp
  | cons i rest ih =>
    rw [suggestLoop] at h
    split at h
    · exact absurd h (by simp)
    · rename_i weak hget
      split at h
      · exact absurd h (by simp)
      · rename_i tail hrec
        obtain ⟨htlen, htail⟩ := ih tail hrec
        have hweak : weak ∈ sortedSquad := List.get?_mem hget
        split at h
        · simp only [Option.some.injEq] at h
          subst h
          exact ⟨by simpa using Nat.le_succ_of_le htlen, htail⟩
        · rename_i c cs hcands
          simp only [] at h
          split at h
          · rename_i hgain
            simp only [Option.some.injEq] at h
            subst h
            constructor
            · simpa using Nat.succ_le_succ htlen
            · intro s hs
              rcases List.mem_cons.1 hs with heq | hmem
              · subst heq
                have hbestf : pickBest gws w c cs ∈ pool.filter (fun q =>
                    q.posId == weak.posId && decide (q.price ≤ weak.price)) := by
                  rw [hcands]
                  exact pickBest_mem gws w c cs
                have hpool := List.mem_of_mem_filter hbestf
                have hprops := List.of_mem_filter hbestf
                simp only [Bool.and_eq_true, beq_iff_eq,
                  decide_eq_true_eq] at hprops
                exact ⟨hweak, hpool, hprops.1, hprops.2, sub_pos.mp hgain⟩
              · exact htail s hmem
          · simp only [Option.some.injEq] at h
            subst h
            exact ⟨by simpa using Nat.le_succ_of_le htlen, htail⟩

/-- Claim C10: every suggestion returned by the heuristic transfer
suggester pairs a current-squad member with a replacement that is not in
the current squad, is flagged available, plays the same position, costs
no more than the outgoing player, and has strictly greater window
expected value (the source appends a suggestion only when
`gain = window_ev(IN) − window_ev(OUT) > 0`); at most `num_transfers`
suggestions are returned.  A `none` result models the `IndexError` the
source raises when `num_transfers` exceeds the squad size. -/
theorem suggest_transfers_sound (currentIds : List Nat)
    (allPlayers : List TrPlayer) (futureGws : List Nat)
    (numTransfers : Nat) (weight : ℚ) (l : List TransferSuggestion)
    (h : suggestTransfers currentIds allPlayers futureGws numTransfers
        weight = some l) :
    l.length ≤ numTransfers ∧
    ∀ s ∈ l,
      s.outP ∈ allPlayers ∧ s.outP.id ∈ currentIds ∧
      s.inP ∈ allPlayers ∧ s.inP.id ∉ currentIds ∧ s.inP.status = "a" ∧
      s.inP.posId = s.outP.posId ∧ s.inP.price ≤ s.outP.price ∧
      windowEv s.outP futureGws weight < windowEv s.inP futureGws weight := by
  unfold suggestTransfers at h
  obtain ⟨hlen, hall⟩ := suggestLoop_sound _ _ _ _ _ _ h
  refine ⟨by simpa using hlen, ?_⟩
  intro s hs
  obtain ⟨hout, hin, hpos, hprice, hev⟩ := hall s hs
  have hout' : s.outP ∈ allPlayers.filter
      (fun p => decide (p.id ∈ currentIds)) :=
    (List.perm_insertionSort
      (fun a b => windowEv a futureGws weight ≤ windowEv b futureGws weight)
      (allPlayers.filter (fun p => decide (p.id ∈ currentIds)))).subset hout
  have houtm := List.mem_of_mem_filter hout'
  have houtp := List.of_mem_filter hout'
  simp only [decide_eq_true_eq] at houtp
  have hinm := List.mem_of_mem_filter hin
  have hinp := List.of_mem_filter hin
  simp only [Bool.and_eq_true, Bool.not_eq_true', decide_eq_false_iff_not,
    beq_iff_eq] at hinp
  exact ⟨houtm, houtp, hinm, hinp.1, hinp.2, hpos, hprice, hev⟩

/-- Concrete suggester scenario: the owned forward (id 1, EV 1). -/
def trOut0 : TrPlayer :=
  { id := 1, posId := 4, price := 60, status := "a", rppm := 1,
    fixtureComparison := fun _ => 0 }

/-- Concrete suggester scenario: the available forward (id 2, EV 3). -/
def trIn0 : TrPlayer :=
  { id := 2, posId := 4, price := 60, status := "a", rppm := 3,
    fixtureComparison := fun _ => 0 }

/-- Evaluation of the suggester on the concrete two-player scenario:
it proposes replacing player 1 by player 2 with a gain of 2. -/
theorem suggestTransfers_eval0 :
    suggestTransfers [1] [trOut0, trIn0] [] 1 (1/10) =
      some [{ outP := trOut0, inP := trIn0, netGain := round2 2 }] := by
  norm_num [suggestTransfers, suggestLoop, windowEv, pickBest, trOut0, trIn0,
    List.insertionSort, List.orderedInsert, List.range_succ, List.filter]

/-- Claim C10 witness: the soundness theorem applied to the concrete
two-player scenario. -/
theorem suggest_transfers_sound_witness :
    (suggestTransfers [1] [trOut0, trIn0] [] 1 (1/10) =
      some [{ outP := trOut0, inP := trIn0, netGain := round2 2 }]) ∧
    (([{ outP := trOut0, inP := trIn0, netGain := round2 2 }] :
        List TransferSuggestion).length ≤ 1 ∧
      ∀ s ∈ ([{ outP := trOut0, inP := trIn0, netGain := round2 2 }] :
        List TransferSuggestion),
        s.outP ∈ [trOut0, trIn0] ∧ s.outP.id ∈ [1] ∧
        s.inP ∈ [trOut0, trIn0] ∧ s.inP.id ∉ [1] ∧ s.inP.status = "a" ∧
        s.inP.posId = s.outP.posId ∧ s.inP.price ≤ s.outP.price ∧
        windowEv s.outP [] (1/10) < windowEv s.inP [] (1/10)) :=
  ⟨suggestTransfers_eval0,
    suggest_transfers_sound [1] [trOut0, trIn0] [] 1 (1/10) _
      suggestTransfers_eval0⟩
